import Mathlib

/-!
Verification development for the rigidregistration package (pairwise rigid
registration and consensus shift estimation for STEM image stacks).

The repository files at hand are the walk-through notebooks, which call into
`rigidregistration.stackregistration.imstack`; the implementation module
itself is not among the files, so every operation below is modelled from the
specification's description of the engine (Fourier masking, pairwise
cross-correlation, the pairwise shift matrix, outlier correction by
transitivity, and row-wise consensus averaging), with rational numbers
standing for the floating-point values of the implementation.
-/

namespace RigidRegistration

/-- A pairwise shift matrix (one cartesian component of Rij): entry `(i, j)`
is the estimated displacement component aligning frame `j` to frame `i`.
Modelled as a total function on indices; only entries inside the active
range are meaningful. -/
def ShiftMat : Type := Nat → Nat → ℚ

/-- The validity mask over shift-matrix entries (`Rij_mask` in the source
notebooks): `true` marks a trusted entry, `false` an outlier. -/
def Mask : Type := Nat → Nat → Bool

/-- Modelled from the spec: `findImageShifts` of the missing
`stackregistration` module (§4.4 ShiftMatrixBuilder).  Runs the pair
correlator `corr` over every unordered pair `{i, j}` with `i < j` inside the
active range `[nz_min, nz_max)`, records the estimate at `(i, j)` and the
negated value at `(j, i)`; entries outside the active range (and the
diagonal) are left at their prior values. -/
def findImageShiftsMat (corr : Nat → Nat → ℚ) (nz_min nz_max : Nat)
    (prior : ShiftMat) : ShiftMat :=
  fun i j =>
    if nz_min ≤ i ∧ i < nz_max ∧ nz_min ≤ j ∧ j < nz_max ∧ i ≠ j then
      if i < j then corr i j else -(corr j i)
    else prior i j

/-- The zero shift matrix: the state of `Xij`/`Yij` on a freshly constructed
`imstack` object, before any correlation run. -/
def zeroShiftMat : ShiftMat := fun _ _ => 0

/-- Modelled from the spec: the effective validity mask (§3 BadImages) of
the missing `stackregistration` module.  Rows and columns of frames listed
in `bad` are forced invalid on top of the manual/automatic mask `m`. -/
def effMask (m : Mask) (bad : List Nat) : Mask :=
  fun i j => m i j && !(bad.contains i) && !(bad.contains j)

/-- The set of column indices `j` whose row-`i` entries take part in the
row-wise consensus average: in the active range, valid per the mask, with
neither endpoint a bad image. -/
def validSet (m : Mask) (bad : List Nat) (nz_min nz_max i : Nat) : Finset Nat :=
  (Finset.Ico nz_min nz_max).filter (fun j => effMask m bad i j = true)

/-- Errors of the aggregation stage (§7): a frame whose shift-matrix row has
no valid entries cannot receive a consensus shift. -/
inductive AggError where
  | insufficientData
  deriving DecidableEq

/-- Modelled from the spec: the row-wise consensus reduction inside
`get_averaged_image` of the missing `stackregistration` module (§4.6
Aggregator).  For frame `i`, the consensus shift component is the mean of
the corrected row over the valid entries; with zero valid entries it fails
with `insufficientData` instead of producing a shift. -/
def consensusShiftRow (X : ShiftMat) (m : Mask) (bad : List Nat)
    (nz_min nz_max i : Nat) : Except AggError ℚ :=
  if (validSet m bad nz_min nz_max i).card = 0 then
    Except.error AggError.insufficientData
  else
    Except.ok ((∑ j ∈ validSet m bad nz_min nz_max i, X i j) /
      (validSet m bad nz_min nz_max i).card)

/-- The two-hop transitivity paths `i → k → j` available to correct an
invalid entry: `k` in the active range, distinct from both endpoints, with
both leg entries valid. -/
def validPathSet (m : Mask) (nz_min nz_max i j : Nat) : Finset Nat :=
  (Finset.Ico nz_min nz_max).filter
    (fun k => k ≠ i ∧ k ≠ j ∧ m i k = true ∧ m k j = true)

/-- Modelled from the spec: `make_corrected_Rij` of the missing
`stackregistration` module (§4.5 ConsistencyEngine, correction).  Valid
entries are kept; an invalid entry is replaced by the average of the
available two-hop transitivity path sums through valid entries; an invalid
entry with no valid path remains unresolved (kept, to be excluded from
aggregation by the caller, never silently zeroed). -/
def make_corrected_Rij (X : ShiftMat) (m : Mask) (nz_min nz_max : Nat) : ShiftMat :=
  fun i j =>
    if m i j = true then X i j
    else if (validPathSet m nz_min nz_max i j).card = 0 then X i j
    else (∑ k ∈ validPathSet m nz_min nz_max i j, (X i k + X k j)) /
      (validPathSet m nz_min nz_max i j).card

/-- Modelled from the spec: a manual edit of one `Rij_mask` entry and its
mirror (§4.5 manual override; the notebooks always assign `[i, j]` and
`[j, i]` together, and the spec requires the symmetric write).  Setting the
pair `{i, j}` writes `v` at both `(i, j)` and `(j, i)`. -/
def setPairMask (m : Mask) (i j : Nat) (v : Bool) : Mask :=
  fun a b => if (a = i ∧ b = j) ∨ (a = j ∧ b = i) then v else m a b

/-- A sequence of manual mask edits `(i, j, v)` applied left to right, as
performed after an automated detection pass. -/
def applyManualEdits (m : Mask) (edits : List (Nat × Nat × Bool)) : Mask :=
  edits.foldl (fun acc e => setPairMask acc e.1 e.2.1 e.2.2) m

/-- Whether a manual edit touches the unordered pair `{i, j}`. -/
def touchesPair (e : Nat × Nat × Bool) (i j : Nat) : Prop :=
  (e.1 = i ∧ e.2.1 = j) ∨ (e.1 = j ∧ e.2.1 = i)

instance (e : Nat × Nat × Bool) (i j : Nat) : Decidable (touchesPair e i j) := by
  unfold touchesPair
  infer_instance

/-- Gaussian-fit configuration slots of the imstack object (§6): `none`
marks a parameter not yet set. -/
structure GFConfig where
  num_peaks : Option Int
  sigma_guess : Option ℚ
  window_radius : Option Int

/-- Configuration errors (§7): parameters missing, or present but
malformed. -/
inductive ConfigError where
  | configurationMissing
  | invalidParameter
  deriving DecidableEq

/-- Modelled from the spec: `setGaussianFitParams` of the missing
`stackregistration` module (§6): sets all three gaussian-fit parameters. -/
def setGaussianFitParams (np : Int) (sg : ℚ) (wr : Int) (_c : GFConfig) : GFConfig :=
  ⟨some np, some sg, some wr⟩

/-- Modelled from the spec: the configuration gate a gaussian-fit run passes
before correlating (§6, §7): all three parameters must have been set (else
`configurationMissing`), and must be positive with `num_peaks ≥ 1` (else
`invalidParameter`). -/
def checkGaussianFitConfig (c : GFConfig) : Except ConfigError (Int × ℚ × Int) :=
  match c.num_peaks, c.sigma_guess, c.window_radius with
  | some np, some sg, some wr =>
      if 1 ≤ np ∧ 0 < sg ∧ 0 < wr then Except.ok (np, sg, wr)
      else Except.error ConfigError.invalidParameter
  | _, _, _ => Except.error ConfigError.configurationMissing

/-- Outcome of one pair's multi-peak Gaussian fit attempt (§4.3): the
floating-point optimization is abstracted as either a converged sub-pixel
estimate or one of the two failure causes. -/
inductive FitOutcome where
  | converged (dx dy : ℚ)
  | windowOutOfBounds
  | noConvergence
  deriving DecidableEq

/-- Whether a fit outcome requires the pixel-mode fallback. -/
def FitOutcome.isFailure : FitOutcome → Bool
  | .converged _ _ => false
  | .windowOutOfBounds => true
  | .noConvergence => true

/-- Modelled from the spec: the gaussian-fit estimate for one pair inside
`findImageShifts` (§4.3, failure clause): a converged fit yields its
sub-pixel estimate; a fit window extending outside the correlation surface
or a non-converging optimization falls back to the pixel-mode estimate for
that pair; the Bool records whether a fallback happened. -/
def gfPairEstimate (fit : Nat → Nat → FitOutcome) (pixelEst : Nat → Nat → ℚ × ℚ)
    (i j : Nat) : (ℚ × ℚ) × Bool :=
  match fit i j with
  | .converged dx dy => ((dx, dy), false)
  | .windowOutOfBounds => (pixelEst i j, true)
  | .noConvergence => (pixelEst i j, true)

/-- Modelled from the spec: the gaussian-fit batch loop of `findImageShifts`
(§7 propagation policy): every listed pair is processed in order, each
failure recovered locally by the pixel fallback, and the run returns all
estimates together with the aggregate fallback count — it never aborts. -/
def runGaussianFitBatch (fit : Nat → Nat → FitOutcome) (pixelEst : Nat → Nat → ℚ × ℚ)
    (pairs : List (Nat × Nat)) : List ((Nat × Nat) × (ℚ × ℚ)) × Nat :=
  pairs.foldl
    (fun acc p =>
      (acc.1 ++ [(p, (gfPairEstimate fit pixelEst p.1 p.2).1)],
       acc.2 + if (gfPairEstimate fit pixelEst p.1 p.2).2 then 1 else 0))
    ([], 0)

/-- Modelled from the spec: the mutable state of the `imstack` object of the
missing `stackregistration` module (§2, §3): frames, cached spectra,
frequency grids, the active Fourier mask, the pairwise shift matrices and
their corrected versions, the validity mask, the bad-image list and the
active range.  `P` is the pixel index type of one frame; spectra are complex
values modelled as pairs. -/
structure ImStack (P : Type) where
  frames : Nat → P → ℚ
  spectra : Nat → P → ℚ × ℚ
  kx : P → ℚ
  ky : P → ℚ
  fourierMask : P → ℚ
  Xij : ShiftMat
  Yij : ShiftMat
  Xij_c : ShiftMat
  Yij_c : ShiftMat
  Rij_mask : Mask
  bad_images : List Nat
  nz_min : Nat
  nz_max : Nat

/-- The Fourier mask families modelled from §4.2, restricted to the windows
expressible over ℚ (radial cutoffs are given as squared frequencies), plus
the user-defined array. -/
inductive FourierMaskMode (P : Type) where
  | noMask
  | lowpass (cutoffSq : ℚ)
  | bandpass (loSq hiSq : ℚ)
  | userDefined (arr : P → ℚ)

/-- Modelled from the spec: building one mask array from the cached
frequency grids and the selected mode (§4.2 FourierMask). -/
def maskFromMode {P : Type} (kx ky : P → ℚ) : FourierMaskMode P → (P → ℚ)
  | .noMask => fun _ => 1
  | .lowpass c => fun p => if kx p ^ 2 + ky p ^ 2 ≤ c then 1 else 0
  | .bandpass lo hi =>
      fun p => if lo ≤ kx p ^ 2 + ky p ^ 2 ∧ kx p ^ 2 + ky p ^ 2 ≤ hi then 1 else 0
  | .userDefined arr => arr

/-- Modelled from the spec: `makeFourierMask` of the missing module (§4.2):
recomputes the active mask array from the grids and the chosen mode and
stores it as the one active mask; nothing else of the state is touched. -/
def makeFourierMask {P : Type} (mode : FourierMaskMode P) (st : ImStack P) : ImStack P :=
  {st with fourierMask := maskFromMode st.kx st.ky mode}

/-- Modelled from the spec: `set_bad_images` of the missing module (§3
BadImages): stores the excluded-frame list; rows and columns of these
frames are forced invalid through `effMask` wherever the validity mask is
consulted, without destroying the underlying mask. -/
def set_bad_images {P : Type} (l : List Nat) (st : ImStack P) : ImStack P :=
  {st with bad_images := l}

/-- Modelled from the spec: the state-level correction pass (§4.5):
recompute both corrected matrices from the raw matrices and the current
effective validity mask. -/
def runCorrection {P : Type} (st : ImStack P) : ImStack P :=
  {st with
    Xij_c := make_corrected_Rij st.Xij (effMask st.Rij_mask st.bad_images)
      st.nz_min st.nz_max
    Yij_c := make_corrected_Rij st.Yij (effMask st.Rij_mask st.bad_images)
      st.nz_min st.nz_max}

/-- The x component of the consensus shift of frame `i` (§4.6): the row-wise
average of the corrected matrix over the valid entries. -/
def consensusX {P : Type} (st : ImStack P) (i : Nat) : Except AggError ℚ :=
  consensusShiftRow st.Xij_c st.Rij_mask st.bad_images st.nz_min st.nz_max i

/-- The y component of the consensus shift of frame `i` (§4.6). -/
def consensusY {P : Type} (st : ImStack P) (i : Nat) : Except AggError ℚ :=
  consensusShiftRow st.Yij_c st.Rij_mask st.bad_images st.nz_min st.nz_max i

/-- Whether an aggregation result is a value rather than an error. -/
def isOkE {α β : Type} : Except α β → Bool
  | Except.ok _ => true
  | Except.error _ => false

/-- Frame `i` shifted by its consensus shift through the supplied sub-pixel
shifting backend (the Fourier shift theorem in the implementation); a frame
without a consensus shift is left in place (it is excluded from the average
anyway). -/
def registeredFrame {P : Type} (shifter : ℚ → ℚ → (P → ℚ) → (P → ℚ))
    (st : ImStack P) (i : Nat) : P → ℚ :=
  match consensusX st i, consensusY st i with
  | Except.ok dx, Except.ok dy => shifter dx dy (st.frames i)
  | _, _ => st.frames i

/-- The frames entering the final average (§4.6): in the active range, not
bad, and holding a consensus shift for both components. -/
def activeFrames {P : Type} (st : ImStack P) : Finset Nat :=
  (Finset.Ico st.nz_min st.nz_max).filter
    (fun i => ¬ i ∈ st.bad_images ∧ isOkE (consensusX st i) = true ∧
      isOkE (consensusY st i) = true)

/-- The outputs of `get_averaged_image` (§4.6): per-frame consensus shifts,
the registered stack, and the average image. -/
structure AvgOutput (P : Type) where
  shifts_x : Nat → Except AggError ℚ
  shifts_y : Nat → Except AggError ℚ
  stack_registered : Nat → P → ℚ
  average : P → ℚ

/-- Modelled from the spec: `get_averaged_image` of the missing module
(§4.6 Aggregator; notebook cell "Correct outliers": the correction pass is
performed automatically when it is run, unless `correct_Rij=False` is
passed).  Computes consensus shifts row-wise from the corrected matrices,
shifts each active frame through the sub-pixel backend, and averages the
shifted active frames pixel-wise. -/
def get_averaged_image {P : Type} (shifter : ℚ → ℚ → (P → ℚ) → (P → ℚ))
    (correct_Rij : Bool) (st : ImStack P) : AvgOutput P :=
  let st' := if correct_Rij then runCorrection st else st
  { shifts_x := consensusX st'
    shifts_y := consensusY st'
    stack_registered := registeredFrame shifter st'
    average := fun p => (∑ i ∈ activeFrames st', registeredFrame shifter st' i p) /
      (activeFrames st').card }

/-- One frame of the stack: a real-valued image over circular pixel
coordinates (the discrete transform's periodic convention), exact over ℚ. -/
abbrev Frame (H W : ℕ) : Type := ZMod H × ZMod W → ℚ

/-- Modelled from the spec: the cross-correlation surface of two frames
(§4.3) under the "none" mask, written directly in the spatial domain: by
the convolution theorem the inverse transform of `Spec_i · conj(Spec_j)` is
the circular cross-correlation, computed here exactly over ℚ. -/
def crossCorr (H W : ℕ) [NeZero H] [NeZero W] (f g : Frame H W)
    (d : ZMod H × ZMod W) : ℚ :=
  ∑ p : ZMod H × ZMod W, f p * g (p + d)

/-- Row-major enumeration of the pixel grid, the order in which the
implementation's argmax scans the flattened correlation surface. -/
def rowMajor (H W : ℕ) : List (ℕ × ℕ) :=
  (List.range H).flatMap (fun y => (List.range W).map (fun x => (y, x)))

/-- First-occurrence argmax over a candidate list, seeded with a current
best: a later candidate replaces the best only when strictly greater, as
numpy's argmax keeps the first of equal maxima. -/
def argmaxFrom (v : ℕ × ℕ → ℚ) : List (ℕ × ℕ) → ℕ × ℕ → ℕ × ℕ
  | [], best => best
  | q :: rest, best => argmaxFrom v rest (if v best < v q then q else best)

/-- The correlation surface sampled at an integer grid position. -/
def ccAt (H W : ℕ) [NeZero H] [NeZero W] (f g : Frame H W) (q : ℕ × ℕ) : ℚ :=
  crossCorr H W f g ((q.1 : ZMod H), (q.2 : ZMod W))

/-- Modelled from the spec: pixel-mode peak location (§4.3): the integer
coordinate of the highest-valued sample of the correlation surface, first
occurrence in row-major scan order. -/
def pixelPeak (H W : ℕ) [NeZero H] [NeZero W] (f g : Frame H W) : ℕ × ℕ :=
  match rowMajor H W with
  | [] => (0, 0)
  | q :: rest => argmaxFrom (ccAt H W f g) rest q

/-- The transform's zero-shift convention: an argmax index past the axis
midpoint wraps to a negative displacement. -/
def wrapIdx (n v : ℕ) : ℤ :=
  if 2 * v ≤ n then (v : ℤ) else (v : ℤ) - n

/-- Modelled from the spec: the pixel-mode pair displacement estimate
(§4.3): the wrapped coordinates of the correlation peak, at 1-pixel
resolution. -/
def pixelShiftEst (H W : ℕ) [NeZero H] [NeZero W] (f g : Frame H W) : ℤ × ℤ :=
  (wrapIdx H (pixelPeak H W f g).1, wrapIdx W (pixelPeak H W f g).2)

/-- The signed frequency coordinate of index `x` on an axis of length `n`
(§4.1 FrequencyGrid): zero at DC, wrapping to negative past the midpoint. -/
def signedFreq (n : ℕ) [NeZero n] (x : ZMod n) : ℚ :=
  (wrapIdx n x.val : ℚ)

/-- Modelled from the spec: the pipeline state after `getFFTs` and a
pixel-mode `findImageShifts` on a freshly constructed `imstack` over `N`
frames (§2 data flow): shift matrices populated over all pairs of the full
range starting from the zero matrices, all-valid mask, no bad images.  (The
spectra cache is not consulted by the spatially modelled correlator.) -/
def initRun (H W : ℕ) [NeZero H] [NeZero W] (stackF : ℕ → Frame H W) (N : ℕ) :
    ImStack (ZMod H × ZMod W) :=
  { frames := stackF
    spectra := fun _ _ => (0, 0)
    kx := fun p => signedFreq W p.2
    ky := fun p => signedFreq H p.1
    fourierMask := fun _ => 1
    Xij := findImageShiftsMat
      (fun i j => ((pixelShiftEst H W (stackF i) (stackF j)).1 : ℚ)) 0 N zeroShiftMat
    Yij := findImageShiftsMat
      (fun i j => ((pixelShiftEst H W (stackF i) (stackF j)).2 : ℚ)) 0 N zeroShiftMat
    Xij_c := zeroShiftMat
    Yij_c := zeroShiftMat
    Rij_mask := fun _ _ => true
    bad_images := []
    nz_min := 0
    nz_max := N }

/-- Modelled from the spec: the full pixel-mode pipeline on a stack of `N`
frames (§2 data flow, §8 round-trip property): correlate all pairs, correct
the shift matrix, and compute consensus shifts, the registered stack and
the average image. -/
def runPipeline (H W : ℕ) [NeZero H] [NeZero W]
    (shifter : ℚ → ℚ → Frame H W → Frame H W) (stackF : ℕ → Frame H W)
    (N : ℕ) : AvgOutput (ZMod H × ZMod W) :=
  get_averaged_image shifter true (initRun H W stackF N)

/-- A concrete three-frame state over a one-pixel frame type, with frame 1
marked bad, used to witness the bad-image claims. -/
def sampleStack : ImStack Unit :=
  { frames := fun _ _ => 0
    spectra := fun _ _ => (0, 0)
    kx := fun _ => 0
    ky := fun _ => 0
    fourierMask := fun _ => 1
    Xij := zeroShiftMat
    Yij := zeroShiftMat
    Xij_c := zeroShiftMat
    Yij_c := zeroShiftMat
    Rij_mask := fun _ _ => true
    bad_images := [1]
    nz_min := 0
    nz_max := 3 }

/-- Off-diagonal antisymmetry of one component of the built shift matrix:
for in-range `i ≠ j` the builder wrote the correlator value at the `i < j`
slot and its negation at the mirrored slot. -/
theorem findImageShiftsMat_antisymm (corr : Nat → Nat → ℚ) (prior : ShiftMat)
    (nz_min nz_max i j : Nat) (hi1 : nz_min ≤ i) (hi2 : i < nz_max)
    (hj1 : nz_min ≤ j) (hj2 : j < nz_max) (hij : i ≠ j) :
    findImageShiftsMat corr nz_min nz_max prior i j =
      -(findImageShiftsMat corr nz_min nz_max prior j i) := by
  unfold findImageShiftsMat
  rcases Nat.lt_or_ge i j with h | h
  · rw [if_pos ⟨hi1, hi2, hj1, hj2, hij⟩, if_pos h,
      if_pos ⟨hj1, hj2, hi1, hi2, hij.symm⟩, if_neg (Nat.lt_asymm h), neg_neg]
  · have h' : j < i := Nat.lt_of_le_of_ne h (fun e => hij e.symm)
    rw [if_pos ⟨hi1, hi2, hj1, hj2, hij⟩, if_neg (Nat.lt_asymm h'),
      if_pos ⟨hj1, hj2, hi1, hi2, hij.symm⟩, if_pos h']

/-- The builder never touches a diagonal entry: `(i, i)` is not an unordered
pair, so it keeps its prior value. -/
theorem findImageShiftsMat_diag (corr : Nat → Nat → ℚ) (prior : ShiftMat)
    (nz_min nz_max i : Nat) :
    findImageShiftsMat corr nz_min nz_max prior i i = prior i i := by
  unfold findImageShiftsMat
  rw [if_neg]
  intro h
  exact h.2.2.2.2 rfl

/-- C1: after every run of the shift-matrix builder (`findImageShifts`),
which runs the pair correlator over every unordered pair `{i, j}` with
`i < j` in the active range, the shift matrices are antisymmetric with zero
diagonal: for in-range `i ≠ j`, `Xij i j = -(Xij j i)` and
`Yij i j = -(Yij j i)`, and `Xij i i = Yij i i = 0` (the prior matrices the
run starts from having zero diagonals, as the fresh zero matrices and every
builder output do). -/
theorem C1_shift_matrix_antisymmetric_zero_diagonal
    (corrX corrY : Nat → Nat → ℚ) (priorX priorY : ShiftMat)
    (nz_min nz_max : Nat)
    (hdX : ∀ a, priorX a a = 0) (hdY : ∀ a, priorY a a = 0)
    (i j : Nat) (hi1 : nz_min ≤ i) (hi2 : i < nz_max)
    (hj1 : nz_min ≤ j) (hj2 : j < nz_max) :
    (i ≠ j →
      findImageShiftsMat corrX nz_min nz_max priorX i j =
        -(findImageShiftsMat corrX nz_min nz_max priorX j i) ∧
      findImageShiftsMat corrY nz_min nz_max priorY i j =
        -(findImageShiftsMat corrY nz_min nz_max priorY j i)) ∧
    findImageShiftsMat corrX nz_min nz_max priorX i i = 0 ∧
    findImageShiftsMat corrY nz_min nz_max priorY i i = 0 := by
  refine ⟨fun hij => ⟨?_, ?_⟩, ?_, ?_⟩
  · exact findImageShiftsMat_antisymm corrX priorX nz_min nz_max i j hi1 hi2 hj1 hj2 hij
  · exact findImageShiftsMat_antisymm corrY priorY nz_min nz_max i j hi1 hi2 hj1 hj2 hij
  · rw [findImageShiftsMat_diag]; exact hdX i
  · rw [findImageShiftsMat_diag]; exact hdY i

/-- C1 witness: at a fresh two-frame run with a concrete correlator, the
antisymmetry and zero diagonal hold at the concrete indices `(0, 1)`. -/
theorem C1_shift_matrix_antisymmetric_zero_diagonal_witness :
    (findImageShiftsMat (fun a b => (a : ℚ) + b) 0 2 zeroShiftMat 0 1 =
      -(findImageShiftsMat (fun a b => (a : ℚ) + b) 0 2 zeroShiftMat 1 0) ∧
     findImageShiftsMat (fun a b => (a : ℚ) * b) 0 2 zeroShiftMat 0 1 =
      -(findImageShiftsMat (fun a b => (a : ℚ) * b) 0 2 zeroShiftMat 1 0)) ∧
    findImageShiftsMat (fun a b => (a : ℚ) + b) 0 2 zeroShiftMat 0 0 = 0 ∧
    findImageShiftsMat (fun a b => (a : ℚ) * b) 0 2 zeroShiftMat 0 0 = 0 := by
  have h := C1_shift_matrix_antisymmetric_zero_diagonal
    (fun a b => (a : ℚ) + b) (fun a b => (a : ℚ) * b) zeroShiftMat zeroShiftMat
    0 2 (fun _ => rfl) (fun _ => rfl) 0 1
    (Nat.le_refl 0) (by decide) (Nat.zero_le 1) (by decide)
  exact ⟨h.1 (by decide), h.2⟩

/-- A valid entry is kept unchanged by the correction pass. -/
theorem make_corrected_Rij_valid (X : ShiftMat) (m : Mask) (nz_min nz_max i j : Nat)
    (h : m i j = true) :
    make_corrected_Rij X m nz_min nz_max i j = X i j := by
  unfold make_corrected_Rij
  rw [if_pos h]

/-- C3: `make_corrected_Rij` is idempotent.  For any shift matrix and
validity mask (and active range), applying the correction twice with the
mask unchanged between the runs yields the same corrected matrix as
applying it once. -/
theorem C3_make_corrected_Rij_idempotent (X : ShiftMat) (m : Mask)
    (nz_min nz_max : Nat) :
    make_corrected_Rij (make_corrected_Rij X m nz_min nz_max) m nz_min nz_max =
      make_corrected_Rij X m nz_min nz_max := by
  funext i j
  set Y := make_corrected_Rij X m nz_min nz_max with hY
  show make_corrected_Rij Y m nz_min nz_max i j = Y i j
  by_cases hm : m i j = true
  · exact make_corrected_Rij_valid Y m nz_min nz_max i j hm
  · by_cases hp : (validPathSet m nz_min nz_max i j).card = 0
    · unfold make_corrected_Rij
      rw [if_neg hm, if_pos hp]
    · have hsum : (∑ k ∈ validPathSet m nz_min nz_max i j, (Y i k + Y k j)) =
          ∑ k ∈ validPathSet m nz_min nz_max i j, (X i k + X k j) := by
        refine Finset.sum_congr rfl (fun k hk => ?_)
        rw [validPathSet, Finset.mem_filter] at hk
        rw [hY, make_corrected_Rij_valid X m nz_min nz_max i k hk.2.2.2.1,
          make_corrected_Rij_valid X m nz_min nz_max k j hk.2.2.2.2]
      have hYij : Y i j = (∑ k ∈ validPathSet m nz_min nz_max i j, (X i k + X k j)) /
          (validPathSet m nz_min nz_max i j).card := by
        rw [hY]
        unfold make_corrected_Rij
        rw [if_neg hm, if_neg hp]
      unfold make_corrected_Rij
      rw [if_neg hm, if_neg hp, hsum, hYij]

/-- C2: for any frame `i`, the row-wise consensus of `get_averaged_image`
averages the corrected row over exactly the columns that are valid per the
mask, in the active range, and not bad images (with `i` itself not bad);
with at least one such column it returns their mean, and with zero valid
entries it fails with `insufficientData` instead of producing a shift. -/
theorem C2_consensus_row_mean_or_insufficient
    (X : ShiftMat) (m : Mask) (bad : List Nat) (nz_min nz_max i : Nat) :
    (∀ j, j ∈ validSet m bad nz_min nz_max i ↔
      nz_min ≤ j ∧ j < nz_max ∧ m i j = true ∧ ¬ i ∈ bad ∧ ¬ j ∈ bad) ∧
    ((validSet m bad nz_min nz_max i).card ≠ 0 →
      consensusShiftRow X m bad nz_min nz_max i =
        Except.ok ((∑ j ∈ validSet m bad nz_min nz_max i, X i j) /
          (validSet m bad nz_min nz_max i).card)) ∧
    ((validSet m bad nz_min nz_max i).card = 0 →
      consensusShiftRow X m bad nz_min nz_max i =
        Except.error AggError.insufficientData) := by
  refine ⟨fun j => ?_, fun h => ?_, fun h => ?_⟩
  · simp [validSet, effMask, Finset.mem_filter, Finset.mem_Ico, and_assoc,
      List.elem_iff]
  · unfold consensusShiftRow
    rw [if_neg h]
  · unfold consensusShiftRow
    rw [if_pos h]

/-- C2 witness: a concrete two-frame row with every entry valid averages to
the row mean. -/
theorem C2_consensus_row_mean_or_insufficient_witness :
    consensusShiftRow (fun _ b => (b : ℚ)) (fun _ _ => true) [] 0 2 0 =
      Except.ok ((∑ j ∈ validSet (fun _ _ => true) [] 0 2 0, (j : ℚ)) /
        (validSet (fun _ _ => true) [] 0 2 0).card) :=
  (C2_consensus_row_mean_or_insufficient (fun _ b => (b : ℚ))
    (fun _ _ => true) [] 0 2 0).2.1 (by decide)

/-- Edits not touching the pair `{i, j}` leave its two mask entries alone. -/
theorem applyManualEdits_untouched (edits : List (Nat × Nat × Bool)) (m : Mask)
    (i j : Nat) (h : ∀ e ∈ edits, ¬ touchesPair e i j) :
    applyManualEdits m edits i j = m i j := by
  induction edits generalizing m with
  | nil => rfl
  | cons e tl ih =>
    have hstep : applyManualEdits m (e :: tl) =
        applyManualEdits (setPairMask m e.1 e.2.1 e.2.2) tl := rfl
    rw [hstep, ih _ (fun x hx => h x (List.mem_cons_of_mem e hx))]
    unfold setPairMask
    rw [if_neg]
    intro hc
    refine h e (List.mem_cons_self e tl) ?_
    rcases hc with ⟨h1, h2⟩ | ⟨h1, h2⟩
    · exact Or.inl ⟨h1.symm, h2.symm⟩
    · exact Or.inr ⟨h2.symm, h1.symm⟩

/-- Appending edit lists composes their application. -/
theorem applyManualEdits_append (m : Mask) (l1 l2 : List (Nat × Nat × Bool)) :
    applyManualEdits m (l1 ++ l2) = applyManualEdits (applyManualEdits m l1) l2 :=
  List.foldl_append _ _ _ _

/-- C5: manual writes to the validity mask (and the bad-image row/column
forcing) are symmetric — setting the pair `{i, j}` sets both `(i, j)` and
`(j, i)`, symmetric masks stay symmetric, and the effective mask including
`BadImages` is symmetric — and an entry touched manually after an automated
detection pass (any detection output `m`) keeps the manually set value:
after further edits not touching the pair, both its entries still read `v`. -/
theorem C5_manual_mask_edits_symmetric_and_precede
    (m : Mask) (bad : List Nat) (i j : Nat) (v : Bool)
    (es1 es2 : List (Nat × Nat × Bool))
    (hsym : ∀ a b, m a b = m b a)
    (h2 : ∀ e ∈ es2, ¬ touchesPair e i j) :
    (setPairMask m i j v i j = v ∧ setPairMask m i j v j i = v) ∧
    (∀ a b, setPairMask m i j v a b = setPairMask m i j v b a) ∧
    (∀ a b, effMask m bad a b = effMask m bad b a) ∧
    (applyManualEdits m (es1 ++ (i, j, v) :: es2) i j = v ∧
     applyManualEdits m (es1 ++ (i, j, v) :: es2) j i = v) := by
  refine ⟨⟨?_, ?_⟩, fun a b => ?_, fun a b => ?_, ?_⟩
  · unfold setPairMask
    rw [if_pos (Or.inl ⟨rfl, rfl⟩)]
  · unfold setPairMask
    rw [if_pos (Or.inr ⟨rfl, rfl⟩)]
  · unfold setPairMask
    split_ifs with ha hb
    · rfl
    · exact absurd (by tauto) hb
    · exact absurd (by tauto) ha
    · exact hsym a b
  · unfold effMask
    cases hca : bad.contains a <;> cases hcb : bad.contains b <;>
      simp [hsym a b]
  · have hmid : ∀ m0 : Mask,
        applyManualEdits m0 ((i, j, v) :: es2) i j = v ∧
        applyManualEdits m0 ((i, j, v) :: es2) j i = v := by
      intro m0
      have hstep : applyManualEdits m0 ((i, j, v) :: es2) =
          applyManualEdits (setPairMask m0 i j v) es2 := rfl
      constructor
      · rw [hstep, applyManualEdits_untouched es2 _ i j h2]
        unfold setPairMask
        rw [if_pos (Or.inl ⟨rfl, rfl⟩)]
      · have h2' : ∀ e ∈ es2, ¬ touchesPair e j i := by
          intro e he hc
          exact h2 e he (hc.elim (fun x => Or.inr x) (fun x => Or.inl x))
        rw [hstep, applyManualEdits_untouched es2 _ j i h2']
        unfold setPairMask
        rw [if_pos (Or.inr ⟨rfl, rfl⟩)]
    rw [applyManualEdits_append]
    exact hmid (applyManualEdits m es1)

/-- C5 witness: a concrete edit sequence — detection output all-valid, one
manual invalidation of the pair `{0, 1}`, followed by an unrelated edit —
keeps the manual value at both entries, and all writes are symmetric. -/
theorem C5_manual_mask_edits_symmetric_and_precede_witness :
    (setPairMask (fun _ _ => true) 0 1 false 0 1 = false ∧
     setPairMask (fun _ _ => true) 0 1 false 1 0 = false) ∧
    (∀ a b, setPairMask (fun _ _ => true) 0 1 false a b =
      setPairMask (fun _ _ => true) 0 1 false b a) ∧
    (∀ a b, effMask (fun _ _ => true) [2] a b = effMask (fun _ _ => true) [2] b a) ∧
    (applyManualEdits (fun _ _ => true) ([(5, 5, true)] ++ (0, 1, false) :: [(2, 3, true)]) 0 1 = false ∧
     applyManualEdits (fun _ _ => true) ([(5, 5, true)] ++ (0, 1, false) :: [(2, 3, true)]) 1 0 = false) :=
  C5_manual_mask_edits_symmetric_and_precede (fun _ _ => true) [2] 0 1 false
    [(5, 5, true)] [(2, 3, true)] (fun _ _ => rfl) (by decide)

/-- C8: a gaussian-fit run is rejected with `configurationMissing` exactly
when one of the three fit parameters has not been set; and once
`setGaussianFitParams` has set all three (with `num_peaks ≥ 1` and positive
`sigma_guess` and `window_radius`), the run is accepted — in particular not
rejected for missing configuration. -/
theorem C8_gaussian_fit_configuration_gate (c : GFConfig) :
    (checkGaussianFitConfig c = Except.error ConfigError.configurationMissing ↔
      c.num_peaks = Option.none ∨ c.sigma_guess = Option.none ∨
        c.window_radius = Option.none) ∧
    (∀ np sg wr, 1 ≤ np → 0 < sg → 0 < wr →
      checkGaussianFitConfig (setGaussianFitParams np sg wr c) =
        Except.ok (np, sg, wr)) := by
  constructor
  · obtain ⟨np, sg, wr⟩ := c
    cases np <;> cases sg <;> cases wr <;>
      simp [checkGaussianFitConfig] <;> split_ifs <;> simp
  · intro np sg wr h1 h2 h3
    show (if 1 ≤ np ∧ 0 < sg ∧ 0 < wr then _ else _) = _
    rw [if_pos ⟨h1, h2, h3⟩]

/-- C8 witness: the unset configuration is rejected as missing, and the
notebook's concrete parameters (3, 3, 4) are accepted. -/
theorem C8_gaussian_fit_configuration_gate_witness :
    checkGaussianFitConfig ⟨Option.none, Option.none, Option.none⟩ =
      Except.error ConfigError.configurationMissing ∧
    checkGaussianFitConfig
        (setGaussianFitParams 3 3 4 ⟨Option.none, Option.none, Option.none⟩) =
      Except.ok (3, 3, 4) := by
  constructor
  · exact (C8_gaussian_fit_configuration_gate
      ⟨Option.none, Option.none, Option.none⟩).1.mpr (Or.inl rfl)
  · exact (C8_gaussian_fit_configuration_gate
      ⟨Option.none, Option.none, Option.none⟩).2 3 3 4 (by decide) (by decide) (by decide)

/-- A fallback is recorded for a pair exactly when its fit outcome is a
failure. -/
theorem gfPairEstimate_snd (fit : Nat → Nat → FitOutcome)
    (pixelEst : Nat → Nat → ℚ × ℚ) (i j : Nat) :
    (gfPairEstimate fit pixelEst i j).2 = (fit i j).isFailure := by
  unfold gfPairEstimate FitOutcome.isFailure
  cases fit i j <;> rfl

/-- The batch loop, started from any accumulator, appends one estimate per
pair and adds one fallback per failing pair. -/
theorem runGaussianFitBatch_fold (fit : Nat → Nat → FitOutcome)
    (pixelEst : Nat → Nat → ℚ × ℚ) :
    ∀ (pairs : List (Nat × Nat)) (acc : List ((Nat × Nat) × (ℚ × ℚ)) × Nat),
      pairs.foldl
        (fun acc p =>
          (acc.1 ++ [(p, (gfPairEstimate fit pixelEst p.1 p.2).1)],
           acc.2 + if (gfPairEstimate fit pixelEst p.1 p.2).2 then 1 else 0))
        acc =
      (acc.1 ++ pairs.map (fun p => (p, (gfPairEstimate fit pixelEst p.1 p.2).1)),
       acc.2 + (pairs.filter (fun p => (fit p.1 p.2).isFailure)).length) := by
  intro pairs
  induction pairs with
  | nil => intro acc; simp
  | cons p tl ih =>
    intro acc
    rw [List.foldl_cons, ih]
    rw [List.map_cons, List.filter_cons]
    rw [gfPairEstimate_snd]
    cases hf : (fit p.1 p.2).isFailure <;> simp <;> omega

/-- C4: in gaussian-fit mode, every pair whose fit window extends outside
the correlation surface or whose fit fails to converge receives the
pixel-mode estimate, the batch run processes every pair (it returns one
estimate per listed pair — it never aborts), and the fallbacks are counted
in the aggregate summary as exactly the failing pairs. -/
theorem C4_gaussian_fit_fallback_never_aborts (fit : Nat → Nat → FitOutcome)
    (pixelEst : Nat → Nat → ℚ × ℚ) (pairs : List (Nat × Nat)) :
    (runGaussianFitBatch fit pixelEst pairs).1 =
      pairs.map (fun p => (p, (gfPairEstimate fit pixelEst p.1 p.2).1)) ∧
    (runGaussianFitBatch fit pixelEst pairs).2 =
      (pairs.filter (fun p => (fit p.1 p.2).isFailure)).length ∧
    (∀ i j, (fit i j).isFailure = true →
      (gfPairEstimate fit pixelEst i j).1 = pixelEst i j) := by
  refine ⟨?_, ?_, ?_⟩
  · unfold runGaussianFitBatch
    rw [runGaussianFitBatch_fold]
    simp
  · unfold runGaussianFitBatch
    rw [runGaussianFitBatch_fold]
    simp
  · intro i j hf
    unfold gfPairEstimate
    cases hc : fit i j
    · rw [hc] at hf
      exact absurd hf (by simp [FitOutcome.isFailure])
    · rfl
    · rfl

/-- C4 witness: a concrete three-pair batch with one convergence, one
out-of-bounds window and one non-convergence returns three estimates, the
two failures falling back to the pixel estimates, with fallback count 2. -/
theorem C4_gaussian_fit_fallback_never_aborts_witness :
    (runGaussianFitBatch
        (fun i _ => if i = 0 then FitOutcome.converged 1 2 else
          if i = 1 then FitOutcome.windowOutOfBounds else FitOutcome.noConvergence)
        (fun i j => ((i : ℚ), (j : ℚ))) [(0, 1), (1, 2), (2, 3)]).2 = 2 :=
  (C4_gaussian_fit_fallback_never_aborts
    (fun i _ => if i = 0 then FitOutcome.converged 1 2 else
      if i = 1 then FitOutcome.windowOutOfBounds else FitOutcome.noConvergence)
    (fun i j => ((i : ℚ), (j : ℚ))) [(0, 1), (1, 2), (2, 3)]).2.1.trans (by decide)

/-- C9: recomputing or switching the Fourier mask modifies only the active
mask array (which becomes the array computed from the grids and the chosen
mode): the cached spectra, the raw and corrected shift matrices, the
validity mask, the frames and the active range are left unchanged. -/
theorem C9_makeFourierMask_only_touches_mask {P : Type}
    (mode : FourierMaskMode P) (st : ImStack P) :
    (makeFourierMask mode st).fourierMask = maskFromMode st.kx st.ky mode ∧
    (makeFourierMask mode st).spectra = st.spectra ∧
    (makeFourierMask mode st).Xij = st.Xij ∧
    (makeFourierMask mode st).Yij = st.Yij ∧
    (makeFourierMask mode st).Xij_c = st.Xij_c ∧
    (makeFourierMask mode st).Yij_c = st.Yij_c ∧
    (makeFourierMask mode st).Rij_mask = st.Rij_mask ∧
    (makeFourierMask mode st).frames = st.frames ∧
    (makeFourierMask mode st).bad_images = st.bad_images ∧
    (makeFourierMask mode st).nz_min = st.nz_min ∧
    (makeFourierMask mode st).nz_max = st.nz_max :=
  ⟨rfl, rfl, rfl, rfl, rfl, rfl, rfl, rfl, rfl, rfl, rfl⟩

/-- C10: `get_averaged_image` run without a prior correction call performs
the correction itself (its `correct_Rij = true` default path), so it
produces the same consensus shifts, registered stack and average image as
calling `make_corrected_Rij` explicitly (the state-level `runCorrection`)
and then `get_averaged_image`. -/
theorem C10_get_averaged_image_auto_corrects {P : Type}
    (shifter : ℚ → ℚ → (P → ℚ) → (P → ℚ)) (st : ImStack P) :
    get_averaged_image shifter true st =
      get_averaged_image shifter true (runCorrection st) := by
  have h : runCorrection (runCorrection st) = runCorrection st := by
    cases st
    rfl
  show get_averaged_image shifter true st =
    get_averaged_image shifter true (runCorrection st)
  unfold get_averaged_image
  rw [if_pos rfl, if_pos rfl, h]

/-- C6: starting from a run in which frame `k` was never excluded, marking
`k` as a bad image forces row and column `k` invalid in the excluded run's
effective validity mask and removes `k` from every consensus-average column
set of that run; and re-running the aggregation with `k` reinstated (the
validity mask untouched throughout) produces results identical to the
original run in which `k` was never excluded. -/
theorem C6_bad_images_exclusion_and_reinstatement {P : Type}
    (shifter : ℚ → ℚ → (P → ℚ) → (P → ℚ)) (st : ImStack P) (k i j : Nat)
    (hk : ¬ k ∈ st.bad_images) :
    effMask (set_bad_images (k :: st.bad_images) st).Rij_mask
      (set_bad_images (k :: st.bad_images) st).bad_images i k = false ∧
    effMask (set_bad_images (k :: st.bad_images) st).Rij_mask
      (set_bad_images (k :: st.bad_images) st).bad_images k j = false ∧
    ¬ k ∈ validSet (set_bad_images (k :: st.bad_images) st).Rij_mask
      (set_bad_images (k :: st.bad_images) st).bad_images
      (set_bad_images (k :: st.bad_images) st).nz_min
      (set_bad_images (k :: st.bad_images) st).nz_max i ∧
    get_averaged_image shifter true
        (set_bad_images st.bad_images (set_bad_images (k :: st.bad_images) st)) =
      get_averaged_image shifter true st := by
  have hc : (set_bad_images (k :: st.bad_images) st).bad_images.contains k = true := by
    rw [List.elem_iff]
    exact List.mem_cons_self k st.bad_images
  refine ⟨?_, ?_, ?_, ?_⟩
  · unfold effMask
    rw [hc]
    simp
  · unfold effMask
    rw [hc]
    simp
  · intro hmem
    rw [validSet, Finset.mem_filter] at hmem
    have hval := hmem.2
    unfold effMask at hval
    rw [hc] at hval
    simp at hval
  · have hst : set_bad_images st.bad_images (set_bad_images (k :: st.bad_images) st) = st := by
      cases st
      rfl
    rw [hst]

/-- C6 witness: on the concrete three-frame state with frame 1 already bad
and frame 2 never excluded, marking frame 2 bad forces its row and column
invalid and drops it from the column set of frame 0 in the excluded run,
and excluding then reinstating frame 2 reproduces exactly the aggregation
output of the original run that never excluded it. -/
theorem C6_bad_images_exclusion_and_reinstatement_witness :
    effMask (set_bad_images (2 :: sampleStack.bad_images) sampleStack).Rij_mask
      (set_bad_images (2 :: sampleStack.bad_images) sampleStack).bad_images 0 2 = false ∧
    effMask (set_bad_images (2 :: sampleStack.bad_images) sampleStack).Rij_mask
      (set_bad_images (2 :: sampleStack.bad_images) sampleStack).bad_images 2 1 = false ∧
    ¬ 2 ∈ validSet (set_bad_images (2 :: sampleStack.bad_images) sampleStack).Rij_mask
      (set_bad_images (2 :: sampleStack.bad_images) sampleStack).bad_images
      (set_bad_images (2 :: sampleStack.bad_images) sampleStack).nz_min
      (set_bad_images (2 :: sampleStack.bad_images) sampleStack).nz_max 0 ∧
    get_averaged_image (fun _ _ f => f) true
        (set_bad_images sampleStack.bad_images
          (set_bad_images (2 :: sampleStack.bad_images) sampleStack)) =
      get_averaged_image (fun _ _ f => f) true sampleStack :=
  C6_bad_images_exclusion_and_reinstatement (fun _ _ f => f) sampleStack 2 0 1
    (by decide)

/-- The circular autocorrelation is maximal at zero lag (Cauchy-Schwarz):
the zero-lag sample of the correlation surface of a frame with itself
dominates every other sample. -/
theorem crossCorr_le_zero_lag (H W : ℕ) [NeZero H] [NeZero W] (f : Frame H W)
    (d : ZMod H × ZMod W) :
    crossCorr H W f f d ≤ crossCorr H W f f 0 := by
  have h0 : crossCorr H W f f 0 = ∑ p : ZMod H × ZMod W, f p ^ 2 := by
    unfold crossCorr
    refine Finset.sum_congr rfl (fun p _ => ?_)
    rw [add_zero, sq]
  have hshift : ∑ p : ZMod H × ZMod W, f (p + d) ^ 2 =
      ∑ p : ZMod H × ZMod W, f p ^ 2 :=
    Equiv.sum_comp (Equiv.addRight d) (fun q => f q ^ 2)
  have hnn : (0 : ℚ) ≤ ∑ p : ZMod H × ZMod W, f p ^ 2 :=
    Finset.sum_nonneg (fun p _ => sq_nonneg _)
  have hcs : (∑ p : ZMod H × ZMod W, f p * f (p + d)) ^ 2 ≤
      (∑ p : ZMod H × ZMod W, f p ^ 2) * ∑ p : ZMod H × ZMod W, f (p + d) ^ 2 :=
    Finset.sum_mul_sq_le_sq_mul_sq Finset.univ f (fun p => f (p + d))
  rw [hshift, ← pow_two] at hcs
  have hle : (∑ p : ZMod H × ZMod W, f p * f (p + d)) ≤
      ∑ p : ZMod H × ZMod W, f p ^ 2 := le_of_sq_le_sq hcs hnn
  rw [h0]
  exact hle

/-- A seed already dominating every later candidate survives the
first-occurrence argmax scan. -/
theorem argmaxFrom_of_le (v : ℕ × ℕ → ℚ) :
    ∀ (l : List (ℕ × ℕ)) (best : ℕ × ℕ), (∀ q ∈ l, v q ≤ v best) →
      argmaxFrom v l best = best
  | [], _, _ => rfl
  | q :: rest, best, h => by
    have hq : ¬ v best < v q := not_lt.mpr (h q (List.mem_cons_self q rest))
    show argmaxFrom v rest (if v best < v q then q else best) = best
    rw [if_neg hq]
    exact argmaxFrom_of_le v rest best (fun x hx => h x (List.mem_cons_of_mem q hx))

/-- For nonempty axes the row-major scan starts at the origin. -/
theorem rowMajor_cons (H W : ℕ) (hH : H ≠ 0) (hW : W ≠ 0) :
    ∃ rest, rowMajor H W = (0, 0) :: rest := by
  obtain ⟨h, rfl⟩ := Nat.exists_eq_succ_of_ne_zero hH
  obtain ⟨w, rfl⟩ := Nat.exists_eq_succ_of_ne_zero hW
  refine ⟨((List.range w).map Nat.succ).map (fun x => ((0 : ℕ), x)) ++
    ((List.range h).map Nat.succ).flatMap
      (fun y => (List.range (Nat.succ w)).map (fun x => (y, x))), ?_⟩
  unfold rowMajor
  rw [List.range_succ_eq_map, List.flatMap_cons, List.range_succ_eq_map,
    List.map_cons, List.cons_append]

/-- Every sample of the autocorrelation surface is dominated by the origin
sample. -/
theorem ccAt_le_origin (H W : ℕ) [NeZero H] [NeZero W] (f : Frame H W)
    (q : ℕ × ℕ) :
    ccAt H W f f q ≤ ccAt H W f f (0, 0) := by
  unfold ccAt
  have h := crossCorr_le_zero_lag H W f ((q.1 : ZMod H), (q.2 : ZMod W))
  simpa using h

/-- Pixel-mode peak of a frame with itself is the origin: the origin sample
dominates by Cauchy-Schwarz and the scan keeps the first of equal maxima. -/
theorem pixelPeak_self (H W : ℕ) [NeZero H] [NeZero W] (f : Frame H W) :
    pixelPeak H W f f = (0, 0) := by
  obtain ⟨rest, hrm⟩ := rowMajor_cons H W (NeZero.ne H) (NeZero.ne W)
  unfold pixelPeak
  rw [hrm]
  exact argmaxFrom_of_le (ccAt H W f f) rest (0, 0)
    (fun q _ => ccAt_le_origin H W f q)

/-- The pixel-mode displacement of a frame against itself is exactly zero. -/
theorem pixelShiftEst_self (H W : ℕ) [NeZero H] [NeZero W] (f : Frame H W) :
    pixelShiftEst H W f f = (0, 0) := by
  unfold pixelShiftEst
  rw [pixelPeak_self]
  simp [wrapIdx]

/-- On an identical stack both built shift matrices vanish everywhere. -/
theorem initRun_shift_matrices_zero (H W : ℕ) [NeZero H] [NeZero W]
    (f : Frame H W) (N i j : ℕ) :
    (initRun H W (fun _ => f) N).Xij i j = 0 ∧
    (initRun H W (fun _ => f) N).Yij i j = 0 := by
  have hx : ((pixelShiftEst H W f f).1 : ℚ) = 0 := by
    rw [pixelShiftEst_self]
    rfl
  have hy : ((pixelShiftEst H W f f).2 : ℚ) = 0 := by
    rw [pixelShiftEst_self]
    rfl
  constructor
  · show findImageShiftsMat
      (fun a b => ((pixelShiftEst H W f f).1 : ℚ)) 0 N zeroShiftMat i j = 0
    unfold findImageShiftsMat zeroShiftMat
    split_ifs <;> simp [hx]
  · show findImageShiftsMat
      (fun a b => ((pixelShiftEst H W f f).2 : ℚ)) 0 N zeroShiftMat i j = 0
    unfold findImageShiftsMat zeroShiftMat
    split_ifs <;> simp [hy]

/-- After the automatic correction pass of the identical-stack pipeline the
corrected matrices still vanish everywhere (the all-valid mask keeps every
entry). -/
theorem pipeline_corrected_zero (H W : ℕ) [NeZero H] [NeZero W]
    (f : Frame H W) (N i j : ℕ) :
    (runCorrection (initRun H W (fun _ => f) N)).Xij_c i j = 0 ∧
    (runCorrection (initRun H W (fun _ => f) N)).Yij_c i j = 0 := by
  have hm : effMask (initRun H W (fun _ => f) N).Rij_mask
      (initRun H W (fun _ => f) N).bad_images i j = true := rfl
  constructor
  · show make_corrected_Rij (initRun H W (fun _ => f) N).Xij
      (effMask (initRun H W (fun _ => f) N).Rij_mask
        (initRun H W (fun _ => f) N).bad_images) 0 N i j = 0
    rw [make_corrected_Rij_valid _ _ _ _ _ _ hm]
    exact (initRun_shift_matrices_zero H W f N i j).1
  · show make_corrected_Rij (initRun H W (fun _ => f) N).Yij
      (effMask (initRun H W (fun _ => f) N).Rij_mask
        (initRun H W (fun _ => f) N).bad_images) 0 N i j = 0
    rw [make_corrected_Rij_valid _ _ _ _ _ _ hm]
    exact (initRun_shift_matrices_zero H W f N i j).2

/-- A row-wise consensus over the full range, all-valid mask and a zero row
is the zero shift. -/
theorem consensusShiftRow_zero (X : ShiftMat) (N i : ℕ) (hN : N ≠ 0)
    (hX : ∀ j, X i j = 0) :
    consensusShiftRow X (fun _ _ => true) [] 0 N i = Except.ok 0 := by
  have hvs : validSet (fun _ _ => true) [] 0 N i = Finset.Ico 0 N := by
    unfold validSet
    exact Finset.filter_true_of_mem (fun x _ => rfl)
  have hcard : (validSet (fun _ _ => true) [] 0 N i).card = N := by
    rw [hvs]
    simp
  have hsum : (∑ j ∈ validSet (fun _ _ => true) [] 0 N i, X i j) = 0 :=
    Finset.sum_eq_zero (fun j _ => hX j)
  unfold consensusShiftRow
  rw [if_neg (by rw [hcard]; exact hN), hsum, zero_div]

/-- Both consensus shift components of the identical-stack pipeline are
zero for every frame. -/
theorem pipeline_consensus_zero (H W : ℕ) [NeZero H] [NeZero W]
    (f : Frame H W) (N : ℕ) (hN : N ≠ 0) (i : ℕ) :
    consensusX (runCorrection (initRun H W (fun _ => f) N)) i = Except.ok 0 ∧
    consensusY (runCorrection (initRun H W (fun _ => f) N)) i = Except.ok 0 := by
  constructor
  · show consensusShiftRow (runCorrection (initRun H W (fun _ => f) N)).Xij_c
      (fun _ _ => true) [] 0 N i = Except.ok 0
    exact consensusShiftRow_zero _ N i hN
      (fun j => (pipeline_corrected_zero H W f N i j).1)
  · show consensusShiftRow (runCorrection (initRun H W (fun _ => f) N)).Yij_c
      (fun _ _ => true) [] 0 N i = Except.ok 0
    exact consensusShiftRow_zero _ N i hN
      (fun j => (pipeline_corrected_zero H W f N i j).2)

/-- Every frame of the identical-stack pipeline enters the average. -/
theorem pipeline_active_frames (H W : ℕ) [NeZero H] [NeZero W]
    (f : Frame H W) (N : ℕ) (hN : N ≠ 0) :
    activeFrames (runCorrection (initRun H W (fun _ => f) N)) = Finset.Ico 0 N := by
  unfold activeFrames
  refine Finset.filter_true_of_mem (fun i _ => ?_)
  refine ⟨List.not_mem_nil i, ?_, ?_⟩
  · rw [(pipeline_consensus_zero H W f N hN i).1]
    rfl
  · rw [(pipeline_consensus_zero H W f N hN i).2]
    rfl

/-- Each registered frame of the identical-stack pipeline is the input
frame: the zero consensus shift leaves it in place. -/
theorem pipeline_registered (H W : ℕ) [NeZero H] [NeZero W] (f : Frame H W)
    (N : ℕ) (hN : N ≠ 0) (shifter : ℚ → ℚ → Frame H W → Frame H W)
    (hsh : shifter 0 0 = id) (i : ℕ) :
    registeredFrame shifter (runCorrection (initRun H W (fun _ => f) N)) i = f := by
  unfold registeredFrame
  rw [(pipeline_consensus_zero H W f N hN i).1,
    (pipeline_consensus_zero H W f N hN i).2]
  show shifter 0 0 ((runCorrection (initRun H W (fun _ => f) N)).frames i) = f
  rw [hsh]
  rfl

/-- C7: round trip on a trivial stack.  For a stack of `N` identical frames
(zero true shift, no noise) the full pixel-mode pipeline yields the
consensus shift `(0, 0)` for every frame, leaves every registered frame
equal to the input frame, and produces an average image exactly equal to
the input frame (exact over ℚ; the sub-pixel backend is any `shifter`
acting as the identity at zero shift, as the Fourier phase ramp of a zero
shift is). -/
theorem C7_round_trip_identical_frames (H W : ℕ) [NeZero H] [NeZero W]
    (f : Frame H W) (N : ℕ) (hN : N ≠ 0)
    (shifter : ℚ → ℚ → Frame H W → Frame H W) (hsh : shifter 0 0 = id) :
    (∀ i, (runPipeline H W shifter (fun _ => f) N).shifts_x i = Except.ok 0 ∧
      (runPipeline H W shifter (fun _ => f) N).shifts_y i = Except.ok 0) ∧
    (∀ i, (runPipeline H W shifter (fun _ => f) N).stack_registered i = f) ∧
    (runPipeline H W shifter (fun _ => f) N).average = f := by
  refine ⟨fun i => ⟨?_, ?_⟩, fun i => ?_, ?_⟩
  · exact (pipeline_consensus_zero H W f N hN i).1
  · exact (pipeline_consensus_zero H W f N hN i).2
  · exact pipeline_registered H W f N hN shifter hsh i
  · show (fun p =>
      (∑ i ∈ activeFrames (runCorrection (initRun H W (fun _ => f) N)),
        registeredFrame shifter (runCorrection (initRun H W (fun _ => f) N)) i p) /
      (activeFrames (runCorrection (initRun H W (fun _ => f) N))).card) = f
    funext p
    rw [pipeline_active_frames H W f N hN]
    have hsum : ∑ i ∈ Finset.Ico 0 N,
        registeredFrame shifter (runCorrection (initRun H W (fun _ => f) N)) i p =
        ∑ _i ∈ Finset.Ico 0 N, f p :=
      Finset.sum_congr rfl
        (fun i _ => by rw [pipeline_registered H W f N hN shifter hsh i])
    rw [hsum, Finset.sum_const, Nat.card_Ico, Nat.sub_zero, nsmul_eq_mul]
    exact mul_div_cancel_left₀ (f p) (Nat.cast_ne_zero.mpr hN)

/-- C7 witness: the one-pixel, one-frame constant stack runs through the
pipeline to the zero consensus shift and the unchanged average image. -/
theorem C7_round_trip_identical_frames_witness :
    (runPipeline 1 1 (fun _ _ g => g) (fun _ => fun _ => (1 : ℚ)) 1).shifts_x 0 =
      Except.ok 0 ∧
    (runPipeline 1 1 (fun _ _ g => g) (fun _ => fun _ => (1 : ℚ)) 1).average =
      (fun _ => (1 : ℚ)) :=
  ⟨((C7_round_trip_identical_frames 1 1 (fun _ => (1 : ℚ)) 1 one_ne_zero
      (fun _ _ g => g) rfl).1 0).1,
   (C7_round_trip_identical_frames 1 1 (fun _ => (1 : ℚ)) 1 one_ne_zero
      (fun _ _ g => g) rfl).2.2⟩

end RigidRegistration
